import Mathlib

/-!
# Verification of the e20009 time-correction calculator

Shallow embedding of `time_correction_calculator.py`, the pulser-run
time-correction pipeline:

* `pad_times` — per-event earliest-hit extraction (the `@njit` inner loop);
* `pulser_results` — per-run aggregation with masking and inverse-variance
  weighting;
* `time_correction_calculator` — cross-run assembly and per-channel weighted
  linear fit.

Modelling conventions:

* Python/NumPy floats are modelled exactly: values that stay rational are `ℚ`;
  values produced by `sqrt` are `ℝ` (`Real.sqrt`).  The comparison
  `hits < 0.1 * num_events` is modelled as the exact rational comparison; for
  integer hit counts the double rounding of `0.1 * n` never crosses an integer
  boundary, so the two agree.
* `int(x)` on a float is truncation toward zero (`ratTrunc`).
* NumPy indexing `a[i]` accepts `-len ≤ i < len`, with negative `i` counting
  from the end (`npIndex`); an out-of-range index is a failure (`none`) — under
  `@njit` it is out-of-bounds access, without it an `IndexError` that no caller
  catches.
* An uncaught exception is modelled by an `Option` result of `none`.
* `np.ma` masked values are modelled as `Option` (`none` = masked).  `np.ma`
  masks the non-finite results of `pad_tb_err ** -2` (its `power` masks where
  the result is not finite), which is why a zero standard error becomes a
  masked weight rather than a crash.
* Assigning `None` into a float NumPy array stores NaN (NumPy converts
  `Py_None` to NaN in its float `setitem`).  Hence a run whose point-cloud
  file is missing fills its slice of `results` with NaN; this is modelled by
  a per-run table cell of `none` in `fit_stage`, with NaN's comparison
  semantics (`NaN == 0.0` is false) reflected in the skip test.
* File output (`np.save` / `np.savetxt`) is out of scope; the persisted fit
  table is the function `fit_stage` computes.
-/

namespace E20009

/-- `NUM_CHANNELS = 10240`, the fixed channel (pad) count of the detector. -/
def NUM_CHANNELS : ℕ := 10240

/-- One row of an event's point cloud, restricted to the columns the
calculator reads: column 3 (amplitude), column 5 (pad/channel id) and
column 6 (time bucket).  All three are floats in the source, modelled
as exact rationals. -/
structure PCPoint where
  amp : ℚ
  pad : ℚ
  tb : ℚ
deriving DecidableEq

/-- Python `int(x)` on a float: truncation toward zero. -/
def ratTrunc (q : ℚ) : ℤ :=
  if 0 ≤ q then Rat.floor q else Rat.ceil q

/-- NumPy indexing of an axis of length `NUM_CHANNELS`: indices in
`[-NUM_CHANNELS, NUM_CHANNELS)` are accepted, negative ones counting from the
end; anything else is a failure. -/
def npIndex (pid : ℤ) : Option (Fin NUM_CHANNELS) :=
  let j : ℤ := if pid < 0 then pid + NUM_CHANNELS else pid
  if h : 0 ≤ j ∧ j < NUM_CHANNELS then some ⟨j.toNat, by omega⟩ else none

/-- One iteration of the loop body of `pad_times`: state is the
`NUM_CHANNELS × 3` array `event_results`, one `(time bucket, amplitude, hit)`
triple per channel.  `pad_id = int(point[5])`, `tb = int(point[6])`,
`amp = point[3]`; the first branch fires when the stored time bucket equals
the `0` the array was initialized with, the second when the new time bucket
is strictly smaller than the stored one. -/
def pad_step (st : Fin NUM_CHANNELS → ℚ × ℚ × ℚ) (point : PCPoint) :
    Option (Fin NUM_CHANNELS → ℚ × ℚ × ℚ) :=
  match npIndex (ratTrunc point.pad) with
  | none => none
  | some i =>
      let tb : ℤ := ratTrunc point.tb
      let amp : ℚ := point.amp
      if (st i).1 = 0 then
        some (fun j => if j = i then ((tb : ℚ), amp, 1) else st j)
      else if (tb : ℚ) < (st i).1 then
        some (fun j => if j = i then ((tb : ℚ), amp, (st i).2.2) else st j)
      else
        some st

/-- `pad_times`: fold the loop body over the event's point cloud, starting
from the all-zero array. -/
def pad_times (pc : List PCPoint) : Option (Fin NUM_CHANNELS → ℚ × ℚ × ℚ) :=
  pc.foldlM pad_step (fun _ => (0, 0, 0))

/-- The `cloud` group of a run's point-cloud file: the `min_event` /
`max_event` attributes and, per event number, either that event's point
cloud (dataset `cloud_<event>`) or `none` when the dataset is absent
(`KeyError`, skipped by `pulser_results`). -/
structure CloudGroup where
  min_event : ℕ
  max_event : ℕ
  clouds : ℕ → Option (List PCPoint)

/-- `num_events = max_event - min_event + 1`.  (The source would fail to
allocate `np.zeros` for `max_event < min_event`; natural subtraction keeps
the embedding total there, and no claim concerns that degenerate case.) -/
def num_events (g : CloudGroup) : ℕ := g.max_event - g.min_event + 1

/-- One iteration of the event loop of `pulser_results`: event
`min_event + idx` either has no stored cloud (the `continue` branch — its
slice of `run_results` keeps the zeros it was initialized with) or is run
through `pad_times` (whose failure would propagate, being outside the
`try`). -/
def event_row (g : CloudGroup) (idx : ℕ) : Option (Fin NUM_CHANNELS → ℚ × ℚ × ℚ) :=
  match g.clouds (g.min_event + idx) with
  | none => some (fun _ => (0, 0, 0))
  | some pc => pad_times pc

/-- The slice `run_results[:, idx, :]` after the event loop (meaningful when
`events_ok` holds; missing events are all-zero rows). -/
def row (g : CloudGroup) (idx : ℕ) : Fin NUM_CHANNELS → ℚ × ℚ × ℚ :=
  (event_row g idx).getD (fun _ => (0, 0, 0))

/-- `pulser_results` finishes its event loop without an uncaught exception
iff every present event's `pad_times` call succeeds. -/
def events_ok (g : CloudGroup) : Prop :=
  ∀ idx ∈ Finset.range (num_events g), (event_row g idx).isSome

instance (g : CloudGroup) : Decidable (events_ok g) :=
  inferInstanceAs (Decidable (∀ _ ∈ _, _))

/-- `np.sum(run_results[:, :, 2], axis=1)`: the number of events in which
channel `c` saw a hit (each event contributes its 0/1 hit flag). -/
def hitsSum (g : CloudGroup) (c : Fin NUM_CHANNELS) : ℚ :=
  ∑ idx ∈ Finset.range (num_events g), (row g idx c).2.2

/-- The validity mask (line 82): channel `c` is masked (invalid) when its
hit count is below `0.1 * num_events`. -/
def padMask (g : CloudGroup) (c : Fin NUM_CHANNELS) : Prop :=
  hitsSum g c < (0.1 : ℚ) * (num_events g : ℚ)

instance (g : CloudGroup) (c : Fin NUM_CHANNELS) : Decidable (padMask g c) :=
  inferInstanceAs (Decidable (_ < _))

/-- `np.ma.mean(pad_tb_ma, axis=1)` at an unmasked channel: the mean of the
channel's time-bucket column over all `num_events` events (events without a
hit contribute their zero row). -/
def pad_tb_avg (g : CloudGroup) (c : Fin NUM_CHANNELS) : ℚ :=
  (∑ idx ∈ Finset.range (num_events g), (row g idx c).1) / (num_events g : ℚ)

/-- The square of `scipy.stats.sem` (standard error of the mean,
`ddof = 1`) of the channel's time-bucket column: sample variance divided by
the number of events.  `sem` itself is `Real.sqrt` of this; the square is
rational, and `pad_tb_err` only ever enters the weighting through its
square.  For `num_events = 1` `sem` is NaN; here the rational division by
zero yields `0`, and both end up masked in `invErrSq` below. -/
def semSq (g : CloudGroup) (c : Fin NUM_CHANNELS) : ℚ :=
  (∑ idx ∈ Finset.range (num_events g), ((row g idx c).1 - pad_tb_avg g c) ^ 2) /
    (((num_events g : ℚ) - 1) * (num_events g : ℚ))

/-- `pad_tb_err ** -2` as a masked value (line 93).  `pad_tb_err` is masked
exactly at masked channels; `np.ma`'s `power` additionally masks entries
whose result is not finite, so an unmasked channel with zero standard error
(`semSq = 0`, e.g. a constant time-bucket column) becomes masked here
instead of raising a division-by-zero.  For `semSq ≠ 0` the value is
`(sqrt semSq)⁻² = semSq⁻¹`. -/
def invErrSq (g : CloudGroup) (c : Fin NUM_CHANNELS) : Option ℚ :=
  if padMask g c then none
  else if semSq g c = 0 then none
  else some (semSq g c)⁻¹

/-- `np.ma.sum(pad_tb_err ** -2)`: masked entries contribute nothing. -/
def invSum (g : CloudGroup) : ℚ :=
  ∑ c : Fin NUM_CHANNELS, (invErrSq g c).getD 0

/-- `pad_tb_weights = pad_tb_err**-2 / np.ma.sum(pad_tb_err**-2)`
(line 93), masked wherever `pad_tb_err ** -2` is. -/
def pad_tb_weights (g : CloudGroup) (c : Fin NUM_CHANNELS) : Option ℚ :=
  (invErrSq g c).map (· / invSum g)

/-- `run_tb_avg = np.ma.average(pad_tb_avg, weights=pad_tb_weights)`
(line 94): the weighted mean over the channels where both the statistic and
the weight are unmasked (`np.ma.average` divides by the sum of the
contributing weights). -/
def run_tb_avg (g : CloudGroup) : ℚ :=
  (∑ c : Fin NUM_CHANNELS, ((pad_tb_weights g c).getD 0) * pad_tb_avg g c) /
    (∑ c : Fin NUM_CHANNELS, (pad_tb_weights g c).getD 0)

/-- The square of `run_tb_err = np.ma.sqrt(1 / np.ma.sum(pad_tb_err**-2))`
(line 95). -/
def run_tb_errSq (g : CloudGroup) : ℚ := (invSum g)⁻¹

/-- `tb_factors = (run_tb_avg - pad_tb_avg).filled(0.0)` (lines 98, 100):
the run-wide reference minus the channel average, with masked channels
filled with `0.0`. -/
def tb_factors (g : CloudGroup) (c : Fin NUM_CHANNELS) : ℚ :=
  if padMask g c then 0 else run_tb_avg g - pad_tb_avg g c

/-- `tb_factors_err = np.ma.sqrt(run_tb_err**2 + pad_tb_err**2).filled(0.0)`
(lines 99, 101): masked channels are filled with `0.0` before any square
root is taken. -/
noncomputable def tb_factors_err (g : CloudGroup) (c : Fin NUM_CHANNELS) : ℝ :=
  if padMask g c then 0 else Real.sqrt ((run_tb_errSq g : ℝ) + (semSq g c : ℝ))

/-- `pad_amp_avg = np.mean(run_results[:, :, 1], axis=1)` (line 104): the
amplitude mean over ALL events (missing events contribute zero terms), the
division being by the full `num_events`. -/
def pad_amp_avg (g : CloudGroup) (c : Fin NUM_CHANNELS) : ℚ :=
  (∑ idx ∈ Finset.range (num_events g), (row g idx c).2.1) / (num_events g : ℚ)

/-- `pad_amp_avg[mask] = 0.0` (line 105). -/
def pad_amp_out (g : CloudGroup) (c : Fin NUM_CHANNELS) : ℚ :=
  if padMask g c then 0 else pad_amp_avg g c

/-- The `NUM_CHANNELS × 3` array `pulser_results` returns (line 107):
`(correction factor, correction factor error, average pad amplitude)` per
channel. -/
noncomputable def pulser_out (g : CloudGroup) (c : Fin NUM_CHANNELS) : ℚ × ℝ × ℚ :=
  (tb_factors g c, tb_factors_err g c, pad_amp_out g c)

/-- `pulser_results` on a run whose point-cloud file is present: `none`
models an uncaught exception out of the event loop (`pad_times` on a pad id
outside the indexable range); otherwise the per-channel result array.  The
file-not-found `return None` branch lives in the run-store lookup of
`time_correction_calculator` below. -/
noncomputable def pulser_results (g : CloudGroup) : Option (Fin NUM_CHANNELS → ℚ × ℝ × ℚ) :=
  if events_ok g then some (pulser_out g) else none

/-- One run-slice `results[:, :, idx]` of the cross-run table.  A present
run contributes its `pulser_results` array; a missing point-cloud file makes
`pulser_results` return `None`, and `results[:, :, idx] = None` then fills
the whole slice with NaN (NumPy stores NaN for `None` in a float array) —
modelled as a cell of `none`. -/
noncomputable def run_cell (store : ℕ → Option CloudGroup) (run : ℕ) :
    Option (Fin NUM_CHANNELS → ℚ × ℝ × ℚ) :=
  (store run).bind pulser_results

/-- The per-channel fitting loop of `time_correction_calculator`
(lines 208–230), applied to the assembled cross-run table.  A table cell of
`none` is a NaN-filled run-slice:

* skip test (line 211): `np.sum(results[pad, 2, :]) == 0.0` holds iff no NaN
  is present (NaN compares unequal to `0.0`) and the amplitudes sum to zero;
  a skipped pad keeps the `(0, 0)` that `fit_results` was initialized with;
* weights (lines 215–216): `1.0 / np.sqrt(error)` per run, then the boolean
  mask `error == 0.0` (false on NaN) substitutes `1.0`;
* the weighted linear fit itself (`lmfit.models.LinearModel`) is an external
  numerical routine, taken as the oracle `fit` returning
  `(slope, intercept)`. -/
noncomputable def fit_stage (num_runs : ℕ)
    (table : ℕ → Option (Fin NUM_CHANNELS → ℚ × ℝ × ℚ))
    (fit : (ℕ → Option ℚ) → (ℕ → Option ℚ) → (ℕ → Option ℝ) → ℚ × ℚ)
    (pad : Fin NUM_CHANNELS) : ℚ × ℚ :=
  if (∀ r ∈ Finset.range num_runs, (table r).isSome) ∧
      (∑ r ∈ Finset.range num_runs, ((table r).map (fun a => (a pad).2.2)).getD 0) = 0 then
    (0, 0)
  else
    let errs : ℕ → Option ℝ := fun r => (table r).map (fun a => (a pad).2.1)
    let weights0 : ℕ → Option ℝ := fun r => (errs r).map (fun e => 1 / Real.sqrt e)
    let weights : ℕ → Option ℝ := fun r => if errs r = some 0 then some 1 else weights0 r
    fit (fun r => (table r).map (fun a => (a pad).2.2))
      (fun r => (table r).map (fun a => (a pad).1)) weights

/-- The run at `r` does not blow up `pulser_results` with an uncaught
exception: either its file is missing (the caught branch) or its event loop
completes. -/
def run_no_crash (store : ℕ → Option CloudGroup) (r : ℕ) : Prop :=
  ∀ g, store r = some g → events_ok g

instance (store : ℕ → Option CloudGroup) (r : ℕ) : Decidable (run_no_crash store r) :=
  match h : store r with
  | none => isTrue (fun g hg => by rw [h] at hg; cases hg)
  | some g =>
      decidable_of_iff (events_ok g)
        ⟨fun ok g' hg' => by rw [h] at hg'; cases hg'; exact ok,
         fun H => H g h⟩

/-- `time_correction_calculator` over the run range
`[run_min, run_max]` (inclusive): assemble the cross-run table (a missing
run's slice is NaN, a run whose aggregation raises aborts the whole batch —
`none`), then run the per-channel fit loop.  File output is out of scope;
the returned array is the persisted fit table. -/
noncomputable def time_correction_calculator (store : ℕ → Option CloudGroup)
    (run_min run_max : ℕ)
    (fit : (ℕ → Option ℚ) → (ℕ → Option ℚ) → (ℕ → Option ℝ) → ℚ × ℚ) :
    Option (Fin NUM_CHANNELS → ℚ × ℚ) :=
  if ∀ idx ∈ Finset.range (run_max - run_min + 1), run_no_crash store (run_min + idx) then
    some (fun pad =>
      fit_stage (run_max - run_min + 1) (fun idx => run_cell store (run_min + idx)) fit pad)
  else none

/-! ## Concrete fixtures

Small channel indices and runs used to evaluate the pipeline on concrete
inputs. -/

/-- A channel index given by a small numeral. -/
def ch (n : ℕ) (h : n < NUM_CHANNELS := by norm_num [NUM_CHANNELS]) :
    Fin NUM_CHANNELS := ⟨n, h⟩

/-- Two events, channel 0 hit in both at the same time bucket `5`:
a valid channel whose time-bucket standard error is exactly zero. -/
def gZeroErr : CloudGroup where
  min_event := 0
  max_event := 1
  clouds := fun e =>
    if e = 0 then some [⟨1, 0, 5⟩] else if e = 1 then some [⟨1, 0, 5⟩] else none

/-- Two events, channel 0 hit in both at time buckets `3` and `7`:
a valid channel with a nonzero standard error; every other channel is
masked. -/
def gVar : CloudGroup where
  min_event := 0
  max_event := 1
  clouds := fun e =>
    if e = 0 then some [⟨1, 0, 3⟩] else if e = 1 then some [⟨2, 0, 7⟩] else none

/-- Two events with the second one absent from the file: channel 0 is hit
once at time bucket `4`. -/
def gGap : CloudGroup where
  min_event := 0
  max_event := 1
  clouds := fun e => if e = 0 then some [⟨2, 0, 4⟩] else none

/-- A one-event run for the missing-run scenario. -/
def gOne : CloudGroup where
  min_event := 0
  max_event := 0
  clouds := fun e => if e = 0 then some [⟨2, 0, 3⟩] else none

/-- A run store holding only run 0: any other requested run has no
point-cloud file. -/
def storeOne : ℕ → Option CloudGroup := fun r => if r = 0 then some gOne else none

/-- A constant fit oracle, used to observe whether the fitting step was
invoked at all. -/
noncomputable def fitConst : (ℕ → Option ℚ) → (ℕ → Option ℚ) → (ℕ → Option ℝ) → ℚ × ℚ :=
  fun _ _ _ => (1, 1)

/-- A one-run cross-run table whose single run has every channel at
`(0, 0, 0)`. -/
noncomputable def tableZero : ℕ → Option (Fin NUM_CHANNELS → ℚ × ℝ × ℚ) :=
  fun _ => some (fun _ => (0, 0, 0))

/-- A one-run cross-run table with time-bucket correction `3`, error `0`
and amplitude `1` everywhere. -/
noncomputable def tableOne : ℕ → Option (Fin NUM_CHANNELS → ℚ × ℝ × ℚ) :=
  fun _ => some (fun _ => (3, 0, 1))

/-! ## Theorems -/

/-- `npIndex` succeeds exactly on the NumPy-indexable range
`[-NUM_CHANNELS, NUM_CHANNELS)`. -/
lemma npIndex_isSome_iff (pid : ℤ) :
    (npIndex pid).isSome ↔ -(NUM_CHANNELS : ℤ) ≤ pid ∧ pid < NUM_CHANNELS := by
  unfold npIndex
  dsimp only
  by_cases hneg : pid < 0 <;>
    simp only [hneg, if_true, if_false, ite_true, ite_false] <;>
    split <;>
    first
      | (next h => exact iff_of_true (by simp) (by omega))
      | (next h => exact iff_of_false (by simp) (by omega))

/-- When the point's pad id is indexable, the loop body always produces a
new state. -/
lemma pad_step_isSome_iff (st : Fin NUM_CHANNELS → ℚ × ℚ × ℚ) (p : PCPoint) :
    (pad_step st p).isSome ↔
      -(NUM_CHANNELS : ℤ) ≤ ratTrunc p.pad ∧ ratTrunc p.pad < NUM_CHANNELS := by
  rw [← npIndex_isSome_iff]
  unfold pad_step
  cases hidx : npIndex (ratTrunc p.pad) with
  | none => simp [hidx]
  | some i =>
      simp only [hidx, Option.isSome_some, iff_true]
      split
      · simp
      · split <;> simp

/-- The fold underlying `pad_times` succeeds from any starting state iff
every point's truncated pad id is indexable. -/
lemma foldlM_pad_step_isSome_iff (pc : List PCPoint) :
    ∀ st : Fin NUM_CHANNELS → ℚ × ℚ × ℚ,
      (pc.foldlM pad_step st).isSome ↔
        ∀ p ∈ pc, -(NUM_CHANNELS : ℤ) ≤ ratTrunc p.pad ∧ ratTrunc p.pad < NUM_CHANNELS := by
  induction pc with
  | nil => intro st; simp
  | cons p pc ih =>
      intro st
      rw [List.foldlM_cons]
      cases hstep : pad_step st p with
      | none =>
          have : ¬ (-(NUM_CHANNELS : ℤ) ≤ ratTrunc p.pad ∧ ratTrunc p.pad < NUM_CHANNELS) := by
            rw [← pad_step_isSome_iff st p, hstep]
            simp
          simp only [Option.bind_eq_bind, Option.none_bind, Option.isSome_none]
          constructor
          · intro h; cases h
          · intro h; exact absurd (h p (List.mem_cons_self p pc)) this
      | some st' =>
          have hp : -(NUM_CHANNELS : ℤ) ≤ ratTrunc p.pad ∧ ratTrunc p.pad < NUM_CHANNELS := by
            rw [← pad_step_isSome_iff st p, hstep]
            simp
          simp only [Option.bind_eq_bind, Option.some_bind]
          rw [ih st']
          constructor
          · intro h q hq
            rcases List.mem_cons.mp hq with rfl | hq'
            · exact hp
            · exact h q hq'
          · intro h q hq
            exact h q (List.mem_cons_of_mem p hq)

/-- Every time bucket a `pad_times` state can hold is an integer. -/
lemma foldlM_pad_step_integral (pc : List PCPoint) :
    ∀ st : Fin NUM_CHANNELS → ℚ × ℚ × ℚ,
      (∀ c, ∃ z : ℤ, (st c).1 = (z : ℚ)) →
        ∀ f, pc.foldlM pad_step st = some f → ∀ c, ∃ z : ℤ, (f c).1 = (z : ℚ) := by
  induction pc with
  | nil =>
      intro st hst f hf c
      rw [List.foldlM_nil] at hf
      cases hf
      exact hst c
  | cons p pc ih =>
      intro st hst f hf c
      rw [List.foldlM_cons] at hf
      cases hstep : pad_step st p with
      | none => rw [hstep] at hf; cases hf
      | some st' =>
          rw [hstep] at hf
          simp only [Option.bind_eq_bind, Option.some_bind] at hf
          refine ih st' ?_ f hf c
          intro c'
          unfold pad_step at hstep
          cases hidx : npIndex (ratTrunc p.pad) with
          | none => rw [hidx] at hstep; cases hstep
          | some i =>
              rw [hidx] at hstep
              dsimp only at hstep
              by_cases h1 : (st i).1 = 0
              · rw [if_pos h1] at hstep
                cases hstep
                by_cases hc : c' = i
                · subst hc; exact ⟨ratTrunc p.tb, by simp⟩
                · exact (by simpa [hc] using hst c')
              · rw [if_neg h1] at hstep
                by_cases h2 : ((ratTrunc p.tb : ℚ)) < (st i).1
                · rw [if_pos h2] at hstep
                  cases hstep
                  by_cases hc : c' = i
                  · subst hc; exact ⟨ratTrunc p.tb, by simp⟩
                  · exact (by simpa [hc] using hst c')
                · rw [if_neg h2] at hstep
                  cases hstep
                  exact hst c'

/-- `Batteries.Rat.floor` agrees with the `Int.floor` of the `FloorRing`
instance. -/
lemma rat_floor_eq_intFloor (q : ℚ) : Rat.floor q = ⌊q⌋ := by
  rw [Rat.floor_def]
  unfold Rat.floor
  split
  · next h => rw [h]; simp
  · rfl

/-- A rational with denominator other than 1 lies strictly above its
floor. -/
lemma floor_lt_of_den_ne_one (q : ℚ) (h : q.den ≠ 1) : (⌊q⌋ : ℚ) < q := by
  rcases lt_or_eq_of_le (Int.floor_le q) with hlt | heq
  · exact hlt
  · exact absurd (heq ▸ Rat.den_intCast ⌊q⌋) h

/-- `Batteries.Rat.ceil` agrees with the `Int.ceil` of the `FloorRing`
instance. -/
lemma rat_ceil_eq_intCeil (q : ℚ) : Rat.ceil q = ⌈q⌉ := by
  unfold Rat.ceil
  split
  · next h =>
    have hq : ((q.num : ℚ)) = q := by
      conv_rhs => rw [← Rat.num_div_den q]
      rw [h]
      simp
    rw [← hq, Int.ceil_intCast]
    simp
  · next h =>
    have hfl : q.num / (q.den : ℤ) = ⌊q⌋ := (Rat.floor_def).symm
    rw [hfl]
    refine le_antisymm ?_ (Int.ceil_le_floor_add_one q)
    rw [Int.le_ceil_iff]
    push_cast
    have := floor_lt_of_den_ne_one q h
    linarith

/-- C1: the spec property "the recorded time bucket is never larger than the
channel's true minimum" fails on the code.  On a point cloud with channel-0
points at time buckets 0 then 5, the stored time bucket 0 is
indistinguishable from the array's zero initializer, so the second point
re-fires the "first time a pad is encountered" branch (contradicting the
code's own comment) and `pad_times` records time bucket 5 — strictly larger
than the true minimum 0. -/
theorem c1_min_time_bucket_violated :
    (pad_times [⟨1, 0, 0⟩, ⟨2, 0, 5⟩]).map (fun f => f (ch 0)) = some (5, 2, 1) := by
  decide

/-- C3: the spec's tie rule "equal time buckets do not overwrite" fails on
the code.  Two channel-0 points with equal time bucket 0 and amplitudes 1
then 2: because the stored time bucket 0 equals the zero initializer, the
second point re-fires the first branch and its amplitude 2 replaces the
first-encountered amplitude 1. -/
theorem c3_tie_break_violated :
    (pad_times [⟨1, 0, 0⟩, ⟨2, 0, 0⟩]).map (fun f => f (ch 0)) = some (0, 2, 1) := by
  decide

/-- C10 (counterexample): `pad_times` does not fail on a truncated channel
id of `-1`, which lies outside `[0, NUM_CHANNELS)` — NumPy indexing wraps
negative ids around, so the point lands on channel `NUM_CHANNELS - 1`. -/
theorem c10_negative_pad_indexable :
    ratTrunc (-1 : ℚ) = -1 ∧
      (pad_times [⟨1, -1, 3⟩]).map (fun f => f (ch 10239)) = some (3, 1, 1) := by
  decide

/-- C10 (amended): `pad_times` truncates channel id and time bucket toward
zero (floor on nonnegatives, ceiling on negatives) before indexing and
comparison; it is total precisely when every point's truncated channel id
lies in the NumPy-indexable range `[-NUM_CHANNELS, NUM_CHANNELS)`; and every
stored time bucket is an integer. -/
theorem c10_totality_and_truncation :
    (∀ pc : List PCPoint, (pad_times pc).isSome ↔
        ∀ p ∈ pc, -(NUM_CHANNELS : ℤ) ≤ ratTrunc p.pad ∧ ratTrunc p.pad < NUM_CHANNELS) ∧
    (∀ q : ℚ, (0 ≤ q → ratTrunc q = ⌊q⌋) ∧ (q < 0 → ratTrunc q = ⌈q⌉)) ∧
    (∀ pc f, pad_times pc = some f → ∀ c, ∃ z : ℤ, (f c).1 = (z : ℚ)) := by
  refine ⟨fun pc => foldlM_pad_step_isSome_iff pc _, fun q => ⟨fun hq => ?_, fun hq => ?_⟩,
    fun pc f hf c => foldlM_pad_step_integral pc _ (fun _ => ⟨0, rfl⟩) f hf c⟩
  · rw [ratTrunc, if_pos hq, rat_floor_eq_intFloor]
  · rw [ratTrunc, if_neg (not_le.mpr hq), rat_ceil_eq_intCeil]

/-- Witness for C10: both directions of the totality criterion and the
integrality of a stored time bucket, at concrete point clouds. -/
theorem c10_totality_and_truncation_witness :
    (pad_times [(⟨1, 5, 3⟩ : PCPoint)]).isSome ∧
      ¬ (pad_times [(⟨1, 10240, 3⟩ : PCPoint)]).isSome ∧
      ratTrunc (mkRat (-7) 2) = -3 ∧
      ∃ z : ℤ, ((fun _ : Fin NUM_CHANNELS => ((0 : ℚ), (0 : ℚ), (0 : ℚ))) (ch 3)).1 = (z : ℚ) := by
  refine ⟨(c10_totality_and_truncation.1 _).mpr (by decide), ?_, ?_,
    c10_totality_and_truncation.2.2 [] _ rfl (ch 3)⟩
  · rw [c10_totality_and_truncation.1]
    decide
  · rw [(c10_totality_and_truncation.2.1 (mkRat (-7) 2)).2 (by decide)]
    decide

/-- C5: a channel whose count of hit events is below 10% of the run's total
event count (`max_event - min_event + 1`) comes out of `pulser_results`
with correction factor, correction-factor error and average amplitude all
exactly 0. -/
theorem c5_low_hit_rate_forced_zero (g : CloudGroup) (c : Fin NUM_CHANNELS)
    (hok : events_ok g)
    (hlow : hitsSum g c < (0.1 : ℚ) * (num_events g : ℚ)) :
    pulser_results g = some (pulser_out g) ∧ pulser_out g c = (0, 0, 0) := by
  refine ⟨by rw [pulser_results, if_pos hok], ?_⟩
  have hm : padMask g c := hlow
  simp [pulser_out, tb_factors, tb_factors_err, pad_amp_out, hm]

/-- Witness for C5: in the run `gVar`, channel 1 is never hit and its
output row is exactly `(0, 0, 0)`. -/
theorem c5_low_hit_rate_forced_zero_witness :
    pulser_results gVar = some (pulser_out gVar) ∧ pulser_out gVar (ch 1) = (0, 0, 0) :=
  c5_low_hit_rate_forced_zero gVar (ch 1) (by decide) (by with_unfolding_all decide)

/-- C9: an event number in range whose point cloud is absent keeps its
all-zero row, so it contributes a zero hit flag and a zero amplitude term,
while both the 10%-of-`num_events` threshold and the amplitude mean keep the
full event count `max_event - min_event + 1` as denominator — the missing
event dilutes both statistics. -/
theorem c9_missing_event_dilutes (g : CloudGroup) (e : ℕ) (c : Fin NUM_CHANNELS)
    (he : e < num_events g) (hmiss : g.clouds (g.min_event + e) = none) :
    row g e = (fun _ => (0, 0, 0)) ∧
    hitsSum g c = ∑ idx ∈ (Finset.range (num_events g)).erase e, (row g idx c).2.2 ∧
    pad_amp_avg g c =
      (∑ idx ∈ (Finset.range (num_events g)).erase e, (row g idx c).2.1) /
        (num_events g : ℚ) ∧
    (padMask g c ↔
      ∑ idx ∈ (Finset.range (num_events g)).erase e, (row g idx c).2.2
        < (0.1 : ℚ) * (num_events g : ℚ)) := by
  have hrow : row g e = (fun _ => ((0 : ℚ), (0 : ℚ), (0 : ℚ))) := by
    simp [row, event_row, hmiss]
  have hmem : e ∈ Finset.range (num_events g) := Finset.mem_range.mpr he
  have h2 : hitsSum g c
      = ∑ idx ∈ (Finset.range (num_events g)).erase e, (row g idx c).2.2 := by
    rw [hitsSum, ← Finset.add_sum_erase _ (fun idx => (row g idx c).2.2) hmem]
    simp [hrow]
  refine ⟨hrow, h2, ?_, ?_⟩
  · rw [pad_amp_avg, ← Finset.add_sum_erase _ (fun idx => (row g idx c).2.1) hmem]
    simp [hrow]
  · rw [padMask, h2]

/-- Witness for C9: in `gGap` the event 1 cloud is absent; instantiated at
channel 0. -/
theorem c9_missing_event_dilutes_witness :
    row gGap 1 = (fun _ => (0, 0, 0)) ∧
    hitsSum gGap (ch 0)
      = ∑ idx ∈ (Finset.range (num_events gGap)).erase 1, (row gGap idx (ch 0)).2.2 ∧
    pad_amp_avg gGap (ch 0) =
      (∑ idx ∈ (Finset.range (num_events gGap)).erase 1, (row gGap idx (ch 0)).2.1) /
        (num_events gGap : ℚ) ∧
    (padMask gGap (ch 0) ↔
      ∑ idx ∈ (Finset.range (num_events gGap)).erase 1, (row gGap idx (ch 0)).2.2
        < (0.1 : ℚ) * (num_events gGap : ℚ)) :=
  c9_missing_event_dilutes gGap 1 (ch 0) (by decide) (by decide)

/-- The squared standard error is a quotient of a sum of squares by a
nonnegative denominator (`num_events ≥ 1`), hence nonnegative. -/
lemma semSq_nonneg (g : CloudGroup) (c : Fin NUM_CHANNELS) : 0 ≤ semSq g c := by
  have hn : (1 : ℚ) ≤ (num_events g : ℚ) := by
    have : 1 ≤ num_events g := Nat.succ_le_succ (Nat.zero_le _)
    exact_mod_cast this
  apply div_nonneg
  · apply Finset.sum_nonneg
    intro i _
    positivity
  · apply mul_nonneg <;> linarith

/-- C4: a channel that passes the validity mask but has zero squared
standard error is masked by `np.ma`'s power operator instead of raising a
division-by-zero; it contributes nothing to the inverse-variance sum, and
every other valid channel with nonzero error keeps the clean weight
`semSq⁻¹ / invSum`. -/
theorem c4_zero_error_channel_safe (g : CloudGroup) (c0 : Fin NUM_CHANNELS)
    (hv : ¬ padMask g c0) (hz : semSq g c0 = 0) :
    invErrSq g c0 = none ∧
    invSum g = ∑ c ∈ Finset.univ.erase c0, (invErrSq g c).getD 0 ∧
    ∀ c, c ≠ c0 → ¬ padMask g c → semSq g c ≠ 0 →
      pad_tb_weights g c = some ((semSq g c)⁻¹ / invSum g) := by
  have h0 : invErrSq g c0 = none := by rw [invErrSq, if_neg hv, if_pos hz]
  refine ⟨h0, ?_, ?_⟩
  · rw [invSum, ← Finset.add_sum_erase _ (fun c => (invErrSq g c).getD 0) (Finset.mem_univ c0)]
    simp [h0]
  · intro c _ hm hs
    rw [pad_tb_weights, invErrSq, if_neg hm, if_neg hs]
    rfl

/-- Witness for C4: in `gZeroErr`, channel 0 is valid (hit in both events)
with a constant time-bucket column, so its squared standard error is 0. -/
theorem c4_zero_error_channel_safe_witness :
    invErrSq gZeroErr (ch 0) = none ∧
    invSum gZeroErr = ∑ c ∈ Finset.univ.erase (ch 0), (invErrSq gZeroErr c).getD 0 ∧
    ∀ c, c ≠ ch 0 → ¬ padMask gZeroErr c → semSq gZeroErr c ≠ 0 →
      pad_tb_weights gZeroErr c = some ((semSq gZeroErr c)⁻¹ / invSum gZeroErr) :=
  c4_zero_error_channel_safe gZeroErr (ch 0) (by with_unfolding_all decide)
    (by with_unfolding_all decide)

/-- C6: when every valid channel has a nonzero squared standard error and at
least one channel is valid, the normalized inverse-variance weights sum to
exactly 1 over the valid channels. -/
theorem c6_weights_sum_to_one (g : CloudGroup)
    (hall : ∀ c, ¬ padMask g c → semSq g c ≠ 0)
    (hex : ∃ c, ¬ padMask g c) :
    ∑ c ∈ Finset.univ.filter (fun c => ¬ padMask g c), (pad_tb_weights g c).getD 0 = 1 := by
  classical
  have hmem : ∀ c ∈ Finset.univ.filter (fun c => ¬ padMask g c),
      invErrSq g c = some (semSq g c)⁻¹ := by
    intro c hc
    rw [Finset.mem_filter] at hc
    rw [invErrSq, if_neg hc.2, if_neg (hall c hc.2)]
  have hS : invSum g = ∑ c ∈ Finset.univ.filter (fun c => ¬ padMask g c), (semSq g c)⁻¹ := by
    rw [invSum, ← Finset.sum_filter_add_sum_filter_not Finset.univ (fun c => ¬ padMask g c)
      (fun c => (invErrSq g c).getD 0)]
    have hz : ∑ c ∈ Finset.univ.filter (fun c => ¬¬ padMask g c),
        (invErrSq g c).getD 0 = 0 := by
      apply Finset.sum_eq_zero
      intro c hc
      rw [Finset.mem_filter] at hc
      rw [invErrSq, if_pos (not_not.mp hc.2)]
      rfl
    rw [hz, add_zero]
    refine Finset.sum_congr rfl (fun c hc => ?_)
    rw [hmem c hc]
    rfl
  have hpos : 0 < ∑ c ∈ Finset.univ.filter (fun c => ¬ padMask g c), (semSq g c)⁻¹ := by
    obtain ⟨c0, hc0⟩ := hex
    refine Finset.sum_pos (fun c hc => ?_) ⟨c0, ?_⟩
    · rw [Finset.mem_filter] at hc
      exact inv_pos.mpr (lt_of_le_of_ne (semSq_nonneg g c) (Ne.symm (hall c hc.2)))
    · rw [Finset.mem_filter]
      exact ⟨Finset.mem_univ _, hc0⟩
  calc ∑ c ∈ Finset.univ.filter (fun c => ¬ padMask g c), (pad_tb_weights g c).getD 0
      = ∑ c ∈ Finset.univ.filter (fun c => ¬ padMask g c), (semSq g c)⁻¹ / invSum g := by
        refine Finset.sum_congr rfl (fun c hc => ?_)
        rw [pad_tb_weights, hmem c hc]
        rfl
    _ = (∑ c ∈ Finset.univ.filter (fun c => ¬ padMask g c), (semSq g c)⁻¹) / invSum g := by
        rw [Finset.sum_div]
    _ = 1 := by
        rw [hS]
        exact div_self (ne_of_gt hpos)

/-- In `gVar`, events 0 and 1 put their single point on channel 0, so every
other channel keeps an all-zero row. -/
lemma row_gVar_zero (c : Fin NUM_CHANNELS) :
    row gVar 0 c = if c = ch 0 then ((3 : ℚ), (1 : ℚ), (1 : ℚ)) else (0, 0, 0) := by
  with_unfolding_all rfl

/-- Event 1 of `gVar` evaluated: channel 0 carries `(7, 2, 1)`. -/
lemma row_gVar_one (c : Fin NUM_CHANNELS) :
    row gVar 1 c = if c = ch 0 then ((7 : ℚ), (2 : ℚ), (1 : ℚ)) else (0, 0, 0) := by
  with_unfolding_all rfl

/-- Every channel of `gVar` other than channel 0 is masked. -/
lemma padMask_gVar_of_ne (c : Fin NUM_CHANNELS) (hc : c ≠ ch 0) : padMask gVar c := by
  have h0 : hitsSum gVar c = 0 := by
    rw [hitsSum]
    have hn : num_events gVar = 2 := by decide
    rw [hn, Finset.sum_range_succ, Finset.sum_range_one, row_gVar_zero, row_gVar_one,
      if_neg hc, if_neg hc]
    norm_num
  rw [padMask, h0]
  have hn : num_events gVar = 2 := by decide
  rw [hn]
  norm_num

/-- Witness for C6: in `gVar` the only valid channel is channel 0, whose
squared standard error is 4; the weights over valid channels sum to 1. -/
theorem c6_weights_sum_to_one_witness :
    ∑ c ∈ Finset.univ.filter (fun c => ¬ padMask gVar c), (pad_tb_weights gVar c).getD 0
      = 1 := by
  refine c6_weights_sum_to_one gVar (fun c hm => ?_) ⟨ch 0, by with_unfolding_all decide⟩
  by_cases hc : c = ch 0
  · subst hc
    with_unfolding_all decide
  · exact absurd (padMask_gVar_of_ne c hc) hm

/-- C7: a pad whose amplitudes over a fully present run range sum to
exactly zero is skipped by the fitting loop: whatever the fit oracle, its
row of the persisted fit table keeps the `(0, 0)` it was initialized
with. -/
theorem c7_zero_amplitude_skipped (num_runs : ℕ)
    (table : ℕ → Option (Fin NUM_CHANNELS → ℚ × ℝ × ℚ))
    (fit : (ℕ → Option ℚ) → (ℕ → Option ℚ) → (ℕ → Option ℝ) → ℚ × ℚ)
    (pad : Fin NUM_CHANNELS)
    (hall : ∀ r ∈ Finset.range num_runs, (table r).isSome)
    (hsum : ∑ r ∈ Finset.range num_runs, ((table r).map (fun a => (a pad).2.2)).getD 0 = 0) :
    fit_stage num_runs table fit pad = (0, 0) := by
  rw [fit_stage, if_pos ⟨hall, hsum⟩]

/-- Witness for C7: a one-run table with all-zero amplitudes; pad 4 is left
at `(0, 0)` even under a fit oracle that never returns `(0, 0)`. -/
theorem c7_zero_amplitude_skipped_witness :
    fit_stage 1 tableZero fitConst (ch 4) = (0, 0) :=
  c7_zero_amplitude_skipped 1 tableZero fitConst (ch 4) (fun _ _ => rfl)
    (by simp [tableZero])

/-- C8: for every pad that is actually fit, the per-run weights handed to
the fit oracle are exactly `1 / sqrt error`, except that wherever the stored
error is zero the weight is substituted with exactly 1 (and a missing run's
NaN cell stays NaN). -/
theorem c8_fit_weights (num_runs : ℕ)
    (table : ℕ → Option (Fin NUM_CHANNELS → ℚ × ℝ × ℚ))
    (fit : (ℕ → Option ℚ) → (ℕ → Option ℚ) → (ℕ → Option ℝ) → ℚ × ℚ)
    (pad : Fin NUM_CHANNELS)
    (hfit : ¬ ((∀ r ∈ Finset.range num_runs, (table r).isSome) ∧
        ∑ r ∈ Finset.range num_runs, ((table r).map (fun a => (a pad).2.2)).getD 0 = 0)) :
    fit_stage num_runs table fit pad =
      fit (fun r => (table r).map (fun a => (a pad).2.2))
        (fun r => (table r).map (fun a => (a pad).1))
        (fun r => (table r).map (fun a =>
          if (a pad).2.1 = 0 then 1 else 1 / Real.sqrt ((a pad).2.1))) := by
  rw [fit_stage, if_neg hfit]
  dsimp only
  congr 1
  funext r
  cases htr : table r with
  | none => simp [htr]
  | some a =>
      by_cases he : (a pad).2.1 = 0
      · simp [htr, he]
      · simp [htr, he]

/-- Witness for C8: a one-run table with amplitude 1 (so the pad is fit) and
stored error 0 (so the substituted unit weight is exercised). -/
theorem c8_fit_weights_witness :
    fit_stage 1 tableOne fitConst (ch 2) =
      fitConst (fun r => (tableOne r).map (fun a => (a (ch 2)).2.2))
        (fun r => (tableOne r).map (fun a => (a (ch 2)).1))
        (fun r => (tableOne r).map (fun a =>
          if (a (ch 2)).2.1 = 0 then 1 else 1 / Real.sqrt ((a (ch 2)).2.1))) := by
  refine c8_fit_weights 1 tableOne fitConst (ch 2) ?_
  rintro ⟨-, hsum⟩
  simp [tableOne] at hsum

/-- C2: a missing run is logged and does not abort the batch, but it does
NOT contribute "nothing": `pulser_results` returns `None`, the assignment
`results[:, :, idx] = None` fills the slice with NaN, and the NaN defeats
every pad's `== 0.0` skip test.  Channel 5 has zero amplitude in the only
present run (run 0) and no data in the missing run 1; were the missing run
a zero contribution it would be skipped with fit `(0, 0)`, but the fit
oracle is invoked (on NaN-poisoned columns) and its value `(1, 1)` lands in
the fit table. -/
theorem c2_missing_run_poisons_fit :
    storeOne 1 = none ∧
    (run_cell storeOne 0).map (fun a => (a (ch 5)).2.2) = some 0 ∧
    (time_correction_calculator storeOne 0 1 fitConst).map (fun f => f (ch 5))
      = some (1, 1) := by
  refine ⟨rfl, ?_, ?_⟩
  · with_unfolding_all decide
  · with_unfolding_all decide

end E20009
